import Mathlib

/-!
Verification of the Backfeed protocol accounting engine
(`backfeed_protocol/contracts/base.py`, class `BaseContract`).

The embedding models the contract state (users, contributions, evaluations)
as explicit lists, mirroring the database tables.  All monetary quantities
(tokens, reputation, fees, scores) are modelled as exact rationals `ℚ`
standing for the source's floating-point reals.  The two real-valued power
functions of the source, `x ** BETA` (`BETA = 0.5`) and `x ** ALPHA`
(`ALPHA = 0.7`), are abstracted as function parameters `powBeta` and
`powAlpha`: every theorem below holds for an arbitrary choice of these
functions, and counterexamples instantiate them with a concrete computable
function.  Database identities are natural numbers; `0` is never issued as
an id by the model (auto-increment counters), but the query helpers keep
the source's Python truthiness semantics, under which a filter argument of
`0` behaves like an omitted argument.
-/

namespace Backfeed

/-- A user row: id, token balance, reputation, and an optional referrer
(stored as the referrer's user id).  Source: `models/user.py` usage in
`base.py`. -/
structure User where
  id : Nat
  tokens : ℚ
  reputation : ℚ
  referrer : Option Nat
deriving DecidableEq

/-- A contribution row: id, creator's user id, contribution type key,
token fund, high-water score mark and creation time (days). -/
structure Contribution where
  id : Nat
  userId : Nat
  contribution_type : String
  token_fund : ℚ
  max_score : ℚ
  time : Int
deriving DecidableEq

/-- An evaluation row: id, evaluator's user id, contribution id, value. -/
structure Evaluation where
  id : Nat
  userId : Nat
  contributionId : Nat
  value : Int
deriving DecidableEq

/-- The whole database state, plus auto-increment counters for fresh ids. -/
structure State where
  users : List User
  contributions : List Contribution
  evaluations : List Evaluation
  nextUserId : Nat
  nextContributionId : Nat
  nextEvalId : Nat
deriving DecidableEq

/-- Configuration record of one contribution type (source:
`BaseContract.CONTRIBUTION_TYPE` values). -/
structure CTConfig where
  fee : ℚ
  distribution_stake : ℚ
  reputation_reward_factor : ℚ
  reward_threshold : ℚ
  stake : ℚ
  token_reward_factor : ℚ
  evaluation_set : List Int
deriving DecidableEq

/-- `BaseContract.USER_INITIAL_TOKENS = 50.0`. -/
def USER_INITIAL_TOKENS : ℚ := 50

/-- `BaseContract.USER_INITIAL_REPUTATION = 20.0`. -/
def USER_INITIAL_REPUTATION : ℚ := 20

/-- `BaseContract.REFERRAL_REWARD_FRACTION = 0.2`. -/
def REFERRAL_REWARD_FRACTION : ℚ := 1 / 5

/-- `BaseContract.REWARD_TOKENS_TO_EVALUATORS = False`. -/
def REWARD_TOKENS_TO_EVALUATORS : Bool := false

/-- The `'base'` entry of `BaseContract.CONTRIBUTION_TYPE`. -/
def baseConfig : CTConfig :=
  { fee := 1
    distribution_stake := 8 / 100
    reputation_reward_factor := 5
    reward_threshold := 1 / 2
    stake := 2 / 100
    token_reward_factor := 50
    evaluation_set := [0, 1] }

/-- `BaseContract.CONTRIBUTION_TYPE`: a table keyed by type name. -/
def CONTRIBUTION_TYPE : List (String × CTConfig) := [("base", baseConfig)]

/-- Lookup of a contribution type in the configuration table
(`self.CONTRIBUTION_TYPE[t]`, `None` standing for a Python `KeyError`). -/
def lookupType (t : String) : Option CTConfig :=
  (CONTRIBUTION_TYPE.find? (fun p => p.1 == t)).map Prod.snd

/-- The fallback configuration used when a lookup cannot fail; never
reachable on the source's paths. -/
def defaultConfig : CTConfig := ⟨0, 0, 0, 0, 0, 0, []⟩

/-- `get_user`: point lookup of a user row by id (source line 261). -/
def get_user (s : State) (uid : Nat) : Option User :=
  s.users.find? (fun u => u.id == uid)

/-- Total lookup of a user; the default is never reached in well-formed
runs (the source would raise an `AttributeError` instead). -/
def getUserD (s : State) (uid : Nat) : User :=
  (get_user s uid).getD ⟨uid, 0, 0, none⟩

/-- Point lookup of a contribution row by id (source line 264). -/
def get_contribution (s : State) (cid : Nat) : Option Contribution :=
  s.contributions.find? (fun c => c.id == cid)

/-- Total lookup of a contribution with an unreachable default. -/
def getContributionD (s : State) (cid : Nat) : Contribution :=
  (get_contribution s cid).getD ⟨cid, 0, "", 0, 0, 0⟩

/-- In-place mutation of the user row with the given id (ORM objects are
live views of rows; an attribute assignment updates the row). -/
def updateUser (s : State) (uid : Nat) (f : User → User) : State :=
  { s with users := s.users.map (fun u => if u.id == uid then f u else u) }

/-- In-place mutation of the contribution row with the given id. -/
def updateContribution (s : State) (cid : Nat) (f : Contribution → Contribution) : State :=
  { s with contributions := s.contributions.map (fun c => if c.id == cid then f c else c) }

/-- `total_reputation`: the aggregate sum of every user's reputation
(source line 309). -/
def total_reputation (s : State) : ℚ :=
  (s.users.map User.reputation).sum

/-- `contribution.evaluations`: the contribution's evaluations in
insertion order (the ORM relationship collection). -/
def contributionEvaluations (s : State) (c : Contribution) : List Evaluation :=
  s.evaluations.filter (fun e => e.contributionId == c.id)

/-- Modelled from the spec: `contribution.engaged_reputation()` lives in
`models/contribution.py`, which is not part of the provided source; the
spec defines it as the sum of reputations of all users with an active
evaluation on that contribution. -/
def engaged_reputation (s : State) (c : Contribution) : ℚ :=
  ((contributionEvaluations s c).map (fun e => (getUserD s e.userId).reputation)).sum

/-- The row filter of `get_evaluations` (source lines 250-255): the
`contribution_id` and `evaluator_id` arguments are tested for Python
truthiness (`if contribution_id:`), so a `0` argument disables the
filter, while the `value` argument is compared against `None` only. -/
def gevCond (contribution_id evaluator_id : Option Nat) (value : Option Int)
    (e : Evaluation) : Bool :=
  (match contribution_id with
   | some cid => cid == 0 || e.contributionId == cid
   | none => true) &&
  (match evaluator_id with
   | some uid => uid == 0 || e.userId == uid
   | none => true) &&
  (match value with
   | some v => e.value == v
   | none => true)

/-- `get_evaluations` (source lines 248-256). -/
def get_evaluations (s : State) (contribution_id evaluator_id : Option Nat)
    (value : Option Int) : List Evaluation :=
  s.evaluations.filter (gevCond contribution_id evaluator_id value)

/-- Python truthiness of an optional integer id argument. -/
def truthyNat : Option Nat → Bool
  | some n => n != 0
  | none => false

/-- Python truthiness of an optional string argument. -/
def truthyStr : Option String → Bool
  | some t => t != ""
  | none => false

/-- `create_user` (source lines 50-67).  `referrer` is a caller-supplied
user object; `referrer_id` is consulted only when no object is given and
is itself subject to Python truthiness.  On success the new row is
appended and returned. -/
def create_user (s : State) (tokens reputation : Option ℚ)
    (referrer : Option User) (referrer_id : Option Nat) :
    Except String (State × User) :=
  let tokens := tokens.getD USER_INITIAL_TOKENS
  let reputation := reputation.getD USER_INITIAL_REPUTATION
  let resolved : Except String (Option User) :=
    match referrer with
    | some r => Except.ok (some r)
    | none =>
      if truthyNat referrer_id then
        match get_user s (referrer_id.getD 0) with
        | some r => Except.ok (some r)
        | none => Except.error "A user with this id could not be found"
      else Except.ok none
  match resolved with
  | Except.error msg => Except.error msg
  | Except.ok ref =>
    let u : User := ⟨s.nextUserId, tokens, reputation, ref.map User.id⟩
    Except.ok ({ s with users := s.users ++ [u], nextUserId := s.nextUserId + 1 }, u)

/-- The default contribution type: the first key of the configuration
table in lexicographic order (source lines 75-77). -/
def default_contribution_type : String :=
  ((CONTRIBUTION_TYPE.map Prod.fst).mergeSort (fun a b => a ≤ b)).headD ""

/-- `create_contribution` (source lines 69-90).  `now` supplies the
creation timestamp (a database default in the source).  Fails when the
type is unknown (`KeyError`) or when the user cannot pay the fee; on
success the fee is debited and seeds the new contribution's token fund. -/
def create_contribution (s : State) (uid : Nat) (contribution_type : Option String)
    (now : Int) : Except String (State × Contribution) :=
  let ct := if truthyStr contribution_type then contribution_type.getD ""
            else default_contribution_type
  match lookupType ct with
  | none => Except.error "contribution_type is not valid"
  | some cfg =>
    if (getUserD s uid).tokens < cfg.fee then
      Except.error "User does not have enough tokens to pay the contribution fee."
    else
      let s1 := updateUser s uid (fun u => { u with tokens := u.tokens - cfg.fee })
      let c : Contribution := ⟨s.nextContributionId, uid, ct, cfg.fee, 0, now⟩
      Except.ok ({ s1 with
          contributions := s1.contributions ++ [c]
          nextContributionId := s.nextContributionId + 1 }, c)

/-- `is_evaluation_value_allowed` (source lines 92-93); `none` stands for
the `KeyError` raised on an unknown contribution type. -/
def is_evaluation_value_allowed (value : Int) (contribution_type : String) :
    Option Bool :=
  (lookupType contribution_type).map (fun cfg => value ∈ cfg.evaluation_set)

/-- `reward_evaluator_with_tokens` (source lines 130-145); dead code in
the shipped configuration since `REWARD_TOKENS_TO_EVALUATORS = False`. -/
def reward_evaluator_with_tokens (s : State) (ev : Evaluation) : State :=
  let c := getContributionD s ev.contributionId
  let evaluator_rep := (getUserD s ev.userId).reputation
  let engaged_rep := engaged_reputation s c - evaluator_rep
  let total_rep := total_reputation s
  let unvoted_rep := total_rep - engaged_rep
  if unvoted_rep > 0 then
    let token_reward := c.token_fund * (evaluator_rep / unvoted_rep)
    let s1 := updateUser s ev.userId (fun u => { u with tokens := u.tokens + token_reward })
    updateContribution s1 c.id (fun cc => { cc with token_fund := cc.token_fund - token_reward })
  else s

/-- `pay_evaluation_fee` (source lines 147-161).  The first binding of
`votedRep` (line 155) is immediately shadowed by line 156, exactly as in
the source. -/
def pay_evaluation_fee (powBeta : ℚ → ℚ) (s : State) (ev : Evaluation) : State :=
  let c := getContributionD s ev.contributionId
  let votedRep := (getUserD s ev.userId).reputation + engaged_reputation s c
  let votedRep := engaged_reputation s c
  let stakeFee := (getUserD s ev.userId).reputation *
    (1 - powBeta (votedRep / total_reputation s))
  let cfg := (lookupType c.contribution_type).getD defaultConfig
  let fee := cfg.stake * stakeFee
  updateUser s ev.userId (fun u => { u with reputation := u.reputation - fee })

/-- `sum_equally_voted_reputation` (source lines 186-194): aggregate sum
of the reputations of the users holding an evaluation of the same value
on the same contribution, minus the current evaluator's reputation. -/
def sum_equally_voted_reputation (s : State) (ev : Evaluation) : ℚ :=
  ((s.evaluations.filter
      (fun e => e.contributionId == ev.contributionId && e.value == ev.value)).map
    (fun e => (getUserD s e.userId).reputation)).sum
  - (getUserD s ev.userId).reputation

/-- The body of the loop of `reward_previous_evaluators` (source lines
175-184), acting on one evaluation `e` of the contribution. -/
def reward_step (dstake stake_distribution burn_factor : ℚ) (ev : Evaluation)
    (st : State) (e : Evaluation) : State :=
  if e.value = ev.value ∧ e.userId ≠ ev.userId then
    let eu := getUserD st e.userId
    let new_reputation := eu.reputation * (1 + dstake * stake_distribution * burn_factor)
    let reputation_delta := new_reputation - eu.reputation
    let st1 := updateUser st e.userId (fun u => { u with reputation := new_reputation })
    match eu.referrer with
    | some rid =>
        updateUser st1 rid
          (fun u => { u with reputation := u.reputation + reputation_delta * REFERRAL_REWARD_FRACTION })
    | none => st1
  else st

/-- `reward_previous_evaluators` (source lines 164-184).  Note the Python
truthiness guard `if equallyVotedRep:` (skip when the aggregate is zero),
the re-addition of the current evaluator's reputation, and the in-place
sequential loop over the contribution's evaluations. -/
def reward_previous_evaluators (powAlpha : ℚ → ℚ) (s : State) (ev : Evaluation) : State :=
  let c := getContributionD s ev.contributionId
  let cfg := (lookupType c.contribution_type).getD defaultConfig
  let equallyVotedRep := sum_equally_voted_reputation s ev
  if equallyVotedRep ≠ 0 then
    let equallyVotedRep := equallyVotedRep + (getUserD s ev.userId).reputation
    let stake_distribution := (getUserD s ev.userId).reputation / equallyVotedRep
    let burn_factor := powAlpha (equallyVotedRep / total_reputation s)
    (contributionEvaluations s c).foldl
      (reward_step cfg.distribution_stake stake_distribution burn_factor ev) s
  else s

/-- `contribution_upvotes` (source lines 206-209): the reputation-weighted
upvote ratio. -/
def contribution_upvotes (s : State) (c : Contribution) : ℚ :=
  (((contributionEvaluations s c).filter (fun e => e.value == 1)).map
    (fun e => (getUserD s e.userId).reputation)).sum / total_reputation s

/-- `contribution_score` (source lines 196-204); `now` stands for
`datetime.now()` measured in days. -/
def contribution_score (s : State) (now : Int) (c : Contribution) : ℚ :=
  let total := total_reputation s
  let upvotes := contribution_upvotes s c
  let downvotes := (((contributionEvaluations s c).filter (fun e => e.value == 0)).map
    (fun e => (getUserD s e.userId).reputation)).sum / total
  let days := now - c.time
  (1 - downvotes) * upvotes * (1 / 10 + 27 / (30 + (days : ℚ)))

/-- `reward_contributor` (source lines 211-241): no-op on a downvote;
otherwise maintains the `max_score` high-water mark and pays the
creator (and their referrer) when a reward base accrues. -/
def reward_contributor (s : State) (ev : Evaluation) : State :=
  if ev.value = 0 then s
  else
    let c := getContributionD s ev.contributionId
    let cfg := (lookupType c.contribution_type).getD defaultConfig
    let currentScore := contribution_upvotes s c
    let max_score := c.max_score
    let rewardBase : ℚ :=
      if currentScore > max_score then
        if max_score ≥ cfg.reward_threshold then currentScore - max_score
        else if currentScore > cfg.reward_threshold then currentScore
        else 0
      else 0
    let s1 := if currentScore > max_score then
        updateContribution s c.id (fun cc => { cc with max_score := currentScore })
      else s
    if rewardBase > 0 then
      let token_reward := cfg.token_reward_factor * rewardBase
      let reputationReward := cfg.reputation_reward_factor * rewardBase
      let contributor := getUserD s c.userId
      let s2 := updateUser s1 c.userId
        (fun u => { u with
            tokens := u.tokens + token_reward
            reputation := u.reputation + reputationReward })
      match contributor.referrer with
      | some rid =>
          updateUser s2 rid
            (fun u => { u with
                tokens := u.tokens + token_reward * REFERRAL_REWARD_FRACTION
                reputation := u.reputation + reputationReward * REFERRAL_REWARD_FRACTION })
      | none => s2
    else s1

/-- The hard delete of any previous evaluations by this user on this
contribution (source lines 105-111): exactly the rows returned by
`get_evaluations(contribution_id, evaluator_id)` are deleted. -/
def delete_previous_evaluations (s : State) (u : User) (c : Contribution) : State :=
  { s with evaluations :=
      s.evaluations.filter (fun e => !(gevCond (some c.id) (some u.id) none e)) }

/-- Insertion of the new evaluation row (source line 113). -/
def insert_evaluation (s : State) (u : User) (c : Contribution) (value : Int) :
    State × Evaluation :=
  let e : Evaluation := ⟨s.nextEvalId, u.id, c.id, value⟩
  ({ s with evaluations := s.evaluations ++ [e], nextEvalId := s.nextEvalId + 1 }, e)

/-- `create_evaluation` (source lines 95-128): validate, detect re-vote,
hard-delete prior evaluations, insert, optionally reward the evaluator in
tokens (dead branch), pay the evaluation fee, reward agreeing previous
evaluators, reward the contributor. -/
def create_evaluation (powAlpha powBeta : ℚ → ℚ) (s : State) (u : User)
    (c : Contribution) (value : Int) : Except String (State × Evaluation) :=
  match is_evaluation_value_allowed value c.contribution_type with
  | none => Except.error "contribution_type is not valid"
  | some false => Except.error "Evaluation value is not valid"
  | some true =>
    let previously_voted := get_evaluations s (some c.id) (some u.id) none ≠ []
    let s1 := delete_previous_evaluations s u c
    let (s2, enew) := insert_evaluation s1 u c value
    let s3 := if REWARD_TOKENS_TO_EVALUATORS ∧ ¬ previously_voted then
        reward_evaluator_with_tokens s2 enew
      else s2
    let s4 := pay_evaluation_fee powBeta s3 enew
    let s5 := reward_previous_evaluators powAlpha s4 enew
    let s6 := reward_contributor s5 enew
    Except.ok (s6, enew)

/-- The slicing tail of `get_contributions` (source lines 301-303):
`results[start:]`, then `results[:limit]` guarded by Python truthiness of
`limit`. -/
def sliceResults (start : Nat) (limit : Option Nat) (l : List Contribution) :
    List Contribution :=
  let l := l.drop start
  match limit with
  | some n => if n ≠ 0 then l.take n else l
  | none => l

/-- `get_contributions` (source lines 269-304): materialize and sort by
the requested key, then slice.  Unknown `order_by` values fail. -/
def get_contributions (s : State) (now : Int) (start : Nat) (limit : Option Nat)
    (order_by : String) : Except String (List Contribution) :=
  if order_by = "score" then
    Except.ok (sliceResults start limit
      (s.contributions.mergeSort
        (fun a b => contribution_score s now a ≤ contribution_score s now b)))
  else if order_by = "-score" then
    Except.ok (sliceResults start limit
      (s.contributions.mergeSort
        (fun a b => contribution_score s now b ≤ contribution_score s now a)))
  else if order_by = "time" then
    Except.ok (sliceResults start limit
      (s.contributions.mergeSort (fun a b => a.time ≤ b.time)))
  else if order_by = "-time" then
    Except.ok (sliceResults start limit
      (s.contributions.mergeSort (fun a b => b.time ≤ a.time)))
  else
    Except.error "Unknown order_by value"

/-! ### Derived views used in the statements below -/

/-- The token-balance view of the user table: ids with token balances. -/
def tokensMap (s : State) : List (Nat × ℚ) :=
  s.users.map (fun u => (u.id, u.tokens))

/-- The non-reputation view of the user table: ids, referrers and token
balances (everything the reputation-reward loop is not allowed to
change). -/
def userShape (s : State) : List (Nat × Option Nat × ℚ) :=
  s.users.map (fun u => (u.id, u.referrer, u.tokens))

/-- The evaluations rewarded by step 6 for the event `ev`: the other
active evaluations on the same contribution holding the same value. -/
def qualifying (s : State) (ev : Evaluation) : List Evaluation :=
  (contributionEvaluations s (getContributionD s ev.contributionId)).filter
    (fun e => e.value == ev.value && e.userId != ev.userId)

/-- The per-evaluator multiplier of step 6: for every qualifying
evaluator, `reward_previous_evaluators` computes
`new_reputation = old * (1 + distribution_stake * share * burn)`; this is
the `distribution_stake * share * burn` part, computed from the state at
the start of the step. -/
def step6_multiplier (powAlpha : ℚ → ℚ) (s : State) (ev : Evaluation) : ℚ :=
  let c := getContributionD s ev.contributionId
  let cfg := (lookupType c.contribution_type).getD defaultConfig
  let equallyVotedRep := sum_equally_voted_reputation s ev + (getUserD s ev.userId).reputation
  cfg.distribution_stake * ((getUserD s ev.userId).reputation / equallyVotedRep)
    * powAlpha (equallyVotedRep / total_reputation s)

/-! ### Concrete states used in counterexamples and witnesses -/

/-- Two users; user 1 created contribution 1 and has already downvoted it
(evaluation 1). -/
def stateDownvote : State :=
  ⟨[⟨1, 49, 20, none⟩, ⟨2, 50, 20, none⟩],
   [⟨1, 1, "base", 1, 0, 0⟩],
   [⟨1, 1, 1, 0⟩], 3, 2, 2⟩

/-- Three users; user 2 upvoted contribution 1 (created by user 1) whose
high-water mark is 1/3. -/
def stateMaxScore : State :=
  ⟨[⟨1, 49, 20, none⟩, ⟨2, 50, 20, none⟩, ⟨3, 50, 20, none⟩],
   [⟨1, 1, "base", 1, 1/3, 0⟩],
   [⟨1, 2, 1, 1⟩], 4, 2, 2⟩

/-- A state in the middle of a `create_evaluation` event (the new
evaluation 3 by user 3 has just been inserted): users 1 and 2 upvoted
contribution 1 earlier, and user 1 was referred by user 2. -/
def stateReferral : State :=
  ⟨[⟨1, 50, 10, some 2⟩, ⟨2, 50, 10, none⟩, ⟨3, 50, 10, none⟩],
   [⟨1, 3, "base", 1, 0, 0⟩],
   [⟨1, 1, 1, 1⟩, ⟨2, 2, 1, 1⟩, ⟨3, 3, 1, 1⟩], 4, 2, 4⟩

/-- Like `stateReferral` but with no referral links. -/
def stateAgree : State :=
  ⟨[⟨1, 50, 10, none⟩, ⟨2, 50, 10, none⟩, ⟨3, 50, 10, none⟩],
   [⟨1, 3, "base", 1, 0, 0⟩],
   [⟨1, 1, 1, 1⟩, ⟨2, 2, 1, 1⟩, ⟨3, 3, 1, 1⟩], 4, 2, 4⟩

/-- A minimal fresh state with two users and one contribution. -/
def stateBasic : State :=
  ⟨[⟨1, 49, 20, none⟩, ⟨2, 50, 20, none⟩],
   [⟨1, 1, "base", 1, 0, 0⟩],
   [], 3, 2, 1⟩

end Backfeed

namespace Backfeed

/-! ### Basic lemmas about lookups and updates -/

theorem find?_map_update (l : List User) (uid uid2 : Nat) (f : User → User)
    (hf : ∀ u, (f u).id = u.id) :
    (l.map (fun u => if u.id == uid then f u else u)).find? (fun u => u.id == uid2)
      = if uid2 = uid then (l.find? (fun u => u.id == uid2)).map f
        else l.find? (fun u => u.id == uid2) := by
  induction l with
  | nil => by_cases h : uid2 = uid <;> simp [h]
  | cons a l ih =>
    by_cases h2 : uid2 = uid
    · subst h2
      rw [if_pos rfl] at ih ⊢
      by_cases h1 : a.id = uid2
      · have hb : (a.id == uid2) = true := beq_iff_eq.mpr h1
        have hfb : ((f a).id == uid2) = true := by rw [hf]; exact hb
        simp only [List.map_cons, hb, if_true, List.find?_cons, hfb]
        rfl
      · have hb : (a.id == uid2) = false := by simpa using h1
        simp only [List.map_cons, hb, Bool.false_eq_true, if_false, List.find?_cons]
        exact ih
    · rw [if_neg h2] at ih ⊢
      by_cases h1 : a.id = uid
      · have hb : (a.id == uid) = true := beq_iff_eq.mpr h1
        have hane : (a.id == uid2) = false := by
          simp only [beq_eq_false_iff_ne, ne_eq]
          intro hcon
          exact h2 (by rw [← hcon, h1])
        have hfne : ((f a).id == uid2) = false := by rw [hf]; exact hane
        simp only [List.map_cons, hb, if_true, List.find?_cons, hfne, hane]
        exact ih
      · have hb : (a.id == uid) = false := by simpa using h1
        simp only [List.map_cons, hb, Bool.false_eq_true, if_false, List.find?_cons]
        by_cases h3 : a.id = uid2
        · simp only [beq_iff_eq.mpr h3]
        · have hb3 : (a.id == uid2) = false := by simpa using h3
          simp only [hb3]
          exact ih

theorem get_user_updateUser (s : State) (uid uid2 : Nat) (f : User → User)
    (hf : ∀ u, (f u).id = u.id) :
    get_user (updateUser s uid f) uid2
      = if uid2 = uid then (get_user s uid2).map f else get_user s uid2 := by
  simp only [get_user, updateUser]
  exact find?_map_update s.users uid uid2 f hf

theorem updateUser_evaluations (s : State) (uid : Nat) (f : User → User) :
    (updateUser s uid f).evaluations = s.evaluations := rfl

theorem updateUser_contributions (s : State) (uid : Nat) (f : User → User) :
    (updateUser s uid f).contributions = s.contributions := rfl

end Backfeed

namespace Backfeed

/-! ### C9: truthiness of the `get_evaluations` filters -/

/-- C9: `get_evaluations` treats `contribution_id` and `evaluator_id` by
Python truthiness, so passing `0` for either behaves exactly as omitting
that filter, while `value = 0` is honored as a filter (only `value = None`
disables it). -/
theorem get_evaluations_truthy_filters (s : State) (cid eid : Option Nat)
    (v : Option Int) :
    get_evaluations s (some 0) eid v = get_evaluations s none eid v ∧
    get_evaluations s cid (some 0) v = get_evaluations s cid none v ∧
    get_evaluations s cid eid (some 0)
      = (get_evaluations s cid eid none).filter (fun e => e.value == 0) := by
  refine ⟨?_, ?_, ?_⟩
  · apply List.filter_congr
    intro e _
    simp [gevCond]
  · apply List.filter_congr
    intro e _
    simp [gevCond]
  · simp only [get_evaluations, List.filter_filter]
    apply List.filter_congr
    intro e _
    simp [gevCond, Bool.and_comm, Bool.and_assoc, Bool.and_left_comm]

end Backfeed

namespace Backfeed

/-! ### C10: referrer resolution in `create_user` -/

/-- C10: a supplied referrer object wins over `referrer_id` (which is
then ignored and never validated against the stored users), a falsy
`referrer_id` (`0` or `None`) is silently ignored, and the
unknown-referrer failure occurs exactly when no referrer object is given
and a non-falsy `referrer_id` resolves to no user. -/
theorem create_user_referrer_resolution (s : State) (tok rep : Option ℚ)
    (r : User) (rid : Option Nat) :
    (create_user s tok rep (some r) rid = create_user s tok rep (some r) none) ∧
    (∃ s2 u, create_user s tok rep (some r) rid = Except.ok (s2, u) ∧
      u.referrer = some r.id) ∧
    (create_user s tok rep none (some 0) = create_user s tok rep none none) ∧
    ((∃ msg, create_user s tok rep none rid = Except.error msg) ↔
      (truthyNat rid = true ∧ get_user s (rid.getD 0) = none)) := by
  refine ⟨rfl, ⟨_, _, rfl, rfl⟩, by simp [create_user, truthyNat], ?_⟩
  match rid with
  | none => simp [create_user, truthyNat]
  | some n =>
    by_cases hn : n = 0
    · subst hn
      simp [create_user, truthyNat]
    · simp only [create_user, truthyNat, Option.getD_some, ne_eq, bne_iff_ne,
        hn, not_false_eq_true, if_true]
      cases hres : get_user s n with
      | none => simp
      | some ru => simp

/-! ### C8: evaluation-value validation -/

/-- C8: `is_evaluation_value_allowed` decides membership of the value in
the configured evaluation set of the contribution type, and
`create_evaluation` fails with the validation error — returning no new
state — exactly when the value is outside that set. -/
theorem evaluation_value_validation (powAlpha powBeta : ℚ → ℚ) (s : State)
    (u : User) (c : Contribution) (v : Int) (cfg : CTConfig)
    (hcfg : lookupType c.contribution_type = some cfg) :
    (is_evaluation_value_allowed v c.contribution_type = some true ↔
      v ∈ cfg.evaluation_set) ∧
    (v ∉ cfg.evaluation_set →
      create_evaluation powAlpha powBeta s u c v
        = Except.error "Evaluation value is not valid") ∧
    (v ∈ cfg.evaluation_set →
      ∃ s2 e, create_evaluation powAlpha powBeta s u c v = Except.ok (s2, e)) := by
  refine ⟨by simp [is_evaluation_value_allowed, hcfg], ?_, ?_⟩
  · intro hv
    simp [create_evaluation, is_evaluation_value_allowed, hcfg, hv]
  · intro hv
    have hall : is_evaluation_value_allowed v c.contribution_type = some true := by
      simp [is_evaluation_value_allowed, hcfg, hv]
    exact ⟨_, _, by simp only [create_evaluation, hall]; exact rfl⟩

/-! ### C5: fees and funds in `create_contribution` -/

/-- C5: for a configured contribution type, `create_contribution` fails
exactly when the user's tokens are below the type's fee — the error
carries no successor state, so nothing is debited and no contribution is
created — and on success the user is debited exactly the fee, which seeds
the new contribution's `token_fund`. -/
theorem create_contribution_fee (s : State) (u : User) (t : String)
    (cfg : CTConfig) (now : Int) (hcfg : lookupType t = some cfg)
    (ht : t ≠ "") (hu : get_user s u.id = some u) :
    (u.tokens < cfg.fee →
      create_contribution s u.id (some t) now
        = Except.error "User does not have enough tokens to pay the contribution fee.") ∧
    (¬ u.tokens < cfg.fee → ∃ s2 c,
      create_contribution s u.id (some t) now = Except.ok (s2, c) ∧
      c.token_fund = cfg.fee ∧
      get_user s2 u.id = some { u with tokens := u.tokens - cfg.fee } ∧
      s2.contributions = s.contributions ++ [c]) := by
  have hud : getUserD s u.id = u := by simp [getUserD, hu]
  constructor
  · intro hlt
    simp [create_contribution, truthyStr, ht, hcfg, hud, hlt]
  · intro hge
    have hbr : create_contribution s u.id (some t) now
        = Except.ok
          ({ updateUser s u.id (fun x => { x with tokens := x.tokens - cfg.fee }) with
              contributions :=
                (updateUser s u.id
                  (fun x => { x with tokens := x.tokens - cfg.fee })).contributions
                  ++ [⟨s.nextContributionId, u.id, t, cfg.fee, 0, now⟩]
              nextContributionId := s.nextContributionId + 1 },
            ⟨s.nextContributionId, u.id, t, cfg.fee, 0, now⟩) := by
      simp [create_contribution, truthyStr, ht, hcfg, hud, hge]
    refine ⟨_, _, hbr, rfl, ?_, rfl⟩
    have h2 := get_user_updateUser s u.id u.id
      (fun x => { x with tokens := x.tokens - cfg.fee }) (fun _ => rfl)
    rw [if_pos rfl, hu] at h2
    simpa [get_user] using h2

end Backfeed

namespace Backfeed

/-! ### Preservation lemmas: the reward steps never touch the evaluation table -/

theorem updateContribution_evaluations (s : State) (cid : Nat)
    (f : Contribution → Contribution) :
    (updateContribution s cid f).evaluations = s.evaluations := rfl

theorem pay_evaluation_fee_evaluations (powBeta : ℚ → ℚ) (s : State) (ev : Evaluation) :
    (pay_evaluation_fee powBeta s ev).evaluations = s.evaluations := rfl

theorem reward_step_evaluations (a b g : ℚ) (ev : Evaluation) (st : State)
    (e : Evaluation) :
    (reward_step a b g ev st e).evaluations = st.evaluations := by
  unfold reward_step
  cases href : (getUserD st e.userId).referrer <;>
    simp only [href, apply_ite State.evaluations, updateUser_evaluations, ite_self]

theorem foldl_reward_step_evaluations (a b g : ℚ) (ev : Evaluation)
    (L : List Evaluation) (st : State) :
    (L.foldl (reward_step a b g ev) st).evaluations = st.evaluations := by
  induction L generalizing st with
  | nil => rfl
  | cons e L ih => rw [List.foldl_cons, ih, reward_step_evaluations]

theorem reward_previous_evaluators_evaluations (powAlpha : ℚ → ℚ) (s : State)
    (ev : Evaluation) :
    (reward_previous_evaluators powAlpha s ev).evaluations = s.evaluations := by
  unfold reward_previous_evaluators
  dsimp only
  split
  · exact foldl_reward_step_evaluations _ _ _ _ _ _
  · rfl

theorem reward_contributor_evaluations (st : State) (ev : Evaluation) :
    (reward_contributor st ev).evaluations = st.evaluations := by
  unfold reward_contributor
  split
  · rfl
  · cases href : (getUserD st (getContributionD st ev.contributionId).userId).referrer <;>
      simp only [href, apply_ite State.evaluations, updateUser_evaluations,
        updateContribution_evaluations, ite_self]

theorem reward_evaluator_with_tokens_evaluations (s : State) (ev : Evaluation) :
    (reward_evaluator_with_tokens s ev).evaluations = s.evaluations := by
  unfold reward_evaluator_with_tokens
  simp only [apply_ite State.evaluations, updateUser_evaluations,
    updateContribution_evaluations, ite_self]

/-- On success, `create_evaluation` leaves the evaluation table equal to
the old table minus the hard-deleted rows, plus the new row at the end. -/
theorem create_evaluation_evaluations (powAlpha powBeta : ℚ → ℚ) (s : State)
    (u : User) (c : Contribution) (v : Int) (s2 : State) (enew : Evaluation)
    (h : create_evaluation powAlpha powBeta s u c v = Except.ok (s2, enew)) :
    s2.evaluations
      = s.evaluations.filter (fun e => !(gevCond (some c.id) (some u.id) none e))
        ++ [enew] ∧
    enew = ⟨s.nextEvalId, u.id, c.id, v⟩ := by
  unfold create_evaluation at h
  cases hall : is_evaluation_value_allowed v c.contribution_type with
  | none => rw [hall] at h; cases h
  | some b =>
    rw [hall] at h
    cases b with
    | false => cases h
    | true =>
      simp only [REWARD_TOKENS_TO_EVALUATORS, Bool.false_eq_true, false_and, if_false,
        Except.ok.injEq, Prod.mk.injEq] at h
      obtain ⟨h1, h2⟩ := h
      constructor
      · rw [← h1, reward_contributor_evaluations, reward_previous_evaluators_evaluations,
          pay_evaluation_fee_evaluations]
        rw [← h2]
        rfl
      · rw [← h2]
        rfl

end Backfeed

namespace Backfeed

/-! ### C2: at most one active evaluation per (user, contribution) pair -/

/-- C2: after a successful `create_evaluation(u, c, v)` there is exactly
one active evaluation for the pair `(u, c)` and its value is `v` (any
prior one was hard-deleted), and the at-most-one-active-per-pair
invariant is preserved for every pair across any sequence of evaluation
events. -/
theorem create_evaluation_unique_pair (powAlpha powBeta : ℚ → ℚ) (s : State)
    (u : User) (c : Contribution) (v : Int) (s2 : State) (enew : Evaluation)
    (h : create_evaluation powAlpha powBeta s u c v = Except.ok (s2, enew)) :
    s2.evaluations.filter (fun e => e.userId == u.id && e.contributionId == c.id)
      = [enew] ∧
    enew.value = v ∧
    (∀ uid cid : Nat,
      (s.evaluations.filter
        (fun e => e.userId == uid && e.contributionId == cid)).length ≤ 1 →
      (s2.evaluations.filter
        (fun e => e.userId == uid && e.contributionId == cid)).length ≤ 1) := by
  obtain ⟨hev, hnew⟩ := create_evaluation_evaluations powAlpha powBeta s u c v s2 enew h
  have hkept : ∀ uid cid : Nat, uid = u.id → cid = c.id →
      (s.evaluations.filter
          (fun e => !(gevCond (some c.id) (some u.id) none e))).filter
        (fun e => e.userId == uid && e.contributionId == cid) = [] := by
    intro uid cid huid hcid
    subst huid; subst hcid
    rw [List.filter_eq_nil_iff]
    intro e he
    have hekept := List.of_mem_filter he
    simp only [Bool.not_eq_eq_eq_not, Bool.not_true] at hekept ⊢
    intro hpair
    simp only [Bool.and_eq_true, beq_iff_eq] at hpair
    have : gevCond (some c.id) (some u.id) none e = true := by
      simp [gevCond, hpair.1, hpair.2]
    rw [this] at hekept
    cases hekept
  refine ⟨?_, ?_, ?_⟩
  · rw [hev, List.filter_append, hkept u.id c.id rfl rfl, hnew]
    simp
  · rw [hnew]
  · intro uid cid hle
    rw [hev, List.filter_append, List.length_append]
    by_cases hp : (enew.userId == uid && enew.contributionId == cid) = true
    · have huid : uid = u.id := by
        rw [hnew] at hp
        simp only [Bool.and_eq_true, beq_iff_eq] at hp
        exact hp.1.symm
      have hcid : cid = c.id := by
        rw [hnew] at hp
        simp only [Bool.and_eq_true, beq_iff_eq] at hp
        exact hp.2.symm
      rw [hkept uid cid huid hcid]
      simpa using List.length_filter_le
        (fun e => e.userId == uid && e.contributionId == cid) [enew]
    · have hone : ([enew].filter
          (fun e => e.userId == uid && e.contributionId == cid)) = [] := by
        simp only [List.filter, hp]
      rw [hone]
      simp only [List.length_nil, Nat.add_zero]
      calc ((s.evaluations.filter
              (fun e => !(gevCond (some c.id) (some u.id) none e))).filter
            (fun e => e.userId == uid && e.contributionId == cid)).length
          ≤ (s.evaluations.filter
              (fun e => e.userId == uid && e.contributionId == cid)).length := by
            exact List.Sublist.length_le
              (List.Sublist.filter _ (List.filter_sublist _))
        _ ≤ 1 := hle

end Backfeed

namespace Backfeed

/-! ### Token balances through the reputation steps -/

theorem updateUser_tokensMap (s : State) (uid : Nat) (f : User → User)
    (hf : ∀ u, (f u).id = u.id ∧ (f u).tokens = u.tokens) :
    tokensMap (updateUser s uid f) = tokensMap s := by
  simp only [tokensMap, updateUser, List.map_map]
  apply List.map_congr_left
  intro u _
  by_cases h : (u.id == uid) = true <;>
    simp [h, (hf u).1, (hf u).2, Function.comp]

theorem pay_evaluation_fee_tokensMap (powBeta : ℚ → ℚ) (s : State) (ev : Evaluation) :
    tokensMap (pay_evaluation_fee powBeta s ev) = tokensMap s :=
  updateUser_tokensMap s ev.userId _ (fun _ => ⟨rfl, rfl⟩)

theorem reward_step_tokensMap (a b g : ℚ) (ev : Evaluation) (st : State)
    (e : Evaluation) :
    tokensMap (reward_step a b g ev st e) = tokensMap st := by
  unfold reward_step
  dsimp only
  split
  · cases href : (getUserD st e.userId).referrer with
    | none => exact updateUser_tokensMap st e.userId _ (fun _ => ⟨rfl, rfl⟩)
    | some rid =>
      have h1 : tokensMap (updateUser st e.userId fun u =>
          { u with reputation := (getUserD st e.userId).reputation * (1 + a * b * g) })
          = tokensMap st :=
        updateUser_tokensMap st e.userId _ (fun x => ⟨rfl, rfl⟩)
      have h2 : tokensMap (updateUser (updateUser st e.userId fun u =>
            { u with reputation := (getUserD st e.userId).reputation * (1 + a * b * g) })
            rid fun u =>
            { u with reputation := u.reputation +
                ((getUserD st e.userId).reputation * (1 + a * b * g)
                  - (getUserD st e.userId).reputation) * REFERRAL_REWARD_FRACTION })
          = tokensMap (updateUser st e.userId fun u =>
            { u with reputation := (getUserD st e.userId).reputation * (1 + a * b * g) }) :=
        updateUser_tokensMap _ rid _ (fun x => ⟨rfl, rfl⟩)
      exact h2.trans h1
  · rfl

theorem foldl_reward_step_tokensMap (a b g : ℚ) (ev : Evaluation)
    (L : List Evaluation) (st : State) :
    tokensMap (L.foldl (reward_step a b g ev) st) = tokensMap st := by
  induction L generalizing st with
  | nil => rfl
  | cons e L ih => rw [List.foldl_cons, ih, reward_step_tokensMap]

theorem reward_previous_evaluators_tokensMap (powAlpha : ℚ → ℚ) (s : State)
    (ev : Evaluation) :
    tokensMap (reward_previous_evaluators powAlpha s ev) = tokensMap s := by
  unfold reward_previous_evaluators
  dsimp only
  split
  · exact foldl_reward_step_tokensMap _ _ _ _ _ _
  · rfl

/-- Anatomy of a successful `create_evaluation`: the returned evaluation
is the freshly inserted row and the returned state is the composition of
the fee and reward steps applied after the hard delete and insert. -/
theorem create_evaluation_ok (powAlpha powBeta : ℚ → ℚ) (s : State) (u : User)
    (c : Contribution) (v : Int) (s2 : State) (enew : Evaluation)
    (h : create_evaluation powAlpha powBeta s u c v = Except.ok (s2, enew)) :
    enew = ⟨s.nextEvalId, u.id, c.id, v⟩ ∧
    s2 = reward_contributor
          (reward_previous_evaluators powAlpha
            (pay_evaluation_fee powBeta
              (insert_evaluation (delete_previous_evaluations s u c) u c v).1 enew)
            enew)
          enew := by
  unfold create_evaluation at h
  cases hall : is_evaluation_value_allowed v c.contribution_type with
  | none => rw [hall] at h; cases h
  | some b =>
    rw [hall] at h
    cases b with
    | false => cases h
    | true =>
      simp only [REWARD_TOKENS_TO_EVALUATORS, Bool.false_eq_true, false_and, if_false,
        Except.ok.injEq, Prod.mk.injEq] at h
      obtain ⟨h1, h2⟩ := h
      refine ⟨?_, ?_⟩
      · rw [← h2]; rfl
      · rw [← h1, ← h2]

/-! ### C3: what a downvote does and does not pay -/

/-- C3 (amended): a downvote leaves every user's token balance unchanged
— in particular the contribution creator's tokens never increase — and
the contributor-reward step is a no-op on any downvote, so the creator
gains no reputation from step 7; the creator's reputation can however
still grow through the previous-evaluator rewards of step 6 or a referral
credit (see the counterexample). -/
theorem downvote_never_pays_tokens (powAlpha powBeta : ℚ → ℚ) (s : State)
    (u : User) (c : Contribution) (s2 : State) (enew : Evaluation)
    (h : create_evaluation powAlpha powBeta s u c 0 = Except.ok (s2, enew)) :
    tokensMap s2 = tokensMap s ∧
    (∀ (st : State) (e2 : Evaluation), e2.value = 0 → reward_contributor st e2 = st) := by
  have hzero : ∀ (st : State) (e2 : Evaluation), e2.value = 0 →
      reward_contributor st e2 = st := by
    intro st e2 hv
    unfold reward_contributor
    rw [if_pos hv]
  obtain ⟨hnew, hpipe⟩ := create_evaluation_ok powAlpha powBeta s u c 0 s2 enew h
  refine ⟨?_, hzero⟩
  rw [hpipe, hzero _ enew (by rw [hnew]), reward_previous_evaluators_tokensMap,
    pay_evaluation_fee_tokensMap]
  rfl

/-- C3 witness: a concrete downvote event for which the theorem's
hypothesis holds by computation. -/
theorem downvote_never_pays_tokens_witness :
    ∃ s2 e2, create_evaluation id id stateDownvote ⟨2, 50, 20, none⟩
        ⟨1, 1, "base", 1, 0, 0⟩ 0 = Except.ok (s2, e2) ∧
      (tokensMap s2 = tokensMap stateDownvote ∧
        (∀ (st : State) (e3 : Evaluation), e3.value = 0 →
          reward_contributor st e3 = st)) :=
  ⟨_, _, rfl, downvote_never_pays_tokens id id stateDownvote ⟨2, 50, 20, none⟩
    ⟨1, 1, "base", 1, 0, 0⟩ _ _ rfl⟩

end Backfeed

namespace Backfeed

/-- C3 counterexample: in `stateDownvote` user 1 created contribution 1
and had already downvoted it; when user 2 also downvotes, step 6 rewards
user 1 as an agreeing previous evaluator, so the creator's reputation
increases during a `value = 0` event. -/
theorem downvote_step6_reputation_cex :
    ∃ s2 e2, create_evaluation id id stateDownvote ⟨2, 50, 20, none⟩
        ⟨1, 1, "base", 1, 0, 0⟩ 0 = Except.ok (s2, e2) ∧
      (getContributionD stateDownvote 1).userId = 1 ∧
      (getUserD s2 1).reputation > (getUserD stateDownvote 1).reputation := by
  refine ⟨_, _, rfl, rfl, ?_⟩
  norm_num [create_evaluation, delete_previous_evaluations, insert_evaluation,
    pay_evaluation_fee, reward_previous_evaluators, reward_contributor, reward_step,
    sum_equally_voted_reputation, contributionEvaluations, engaged_reputation,
    total_reputation, getUserD, get_user, getContributionD, get_contribution,
    updateUser, gevCond, stateDownvote, get_evaluations, lookupType,
    CONTRIBUTION_TYPE, baseConfig, defaultConfig, REFERRAL_REWARD_FRACTION,
    is_evaluation_value_allowed, REWARD_TOKENS_TO_EVALUATORS,
    List.find?, List.filter, List.foldl,
    show ((1:Nat) == 1) = true from rfl,
    show ((2:Nat) == 2) = true from rfl,
    show ((1:Nat) == 2) = false from rfl,
    show ((2:Nat) == 1) = false from rfl,
    show ((0:Int) == 0) = true from rfl,
    show (((1:Nat) = 2) ↔ False) from by decide]

end Backfeed

namespace Backfeed

/-! ### The contribution table through the pipeline, and `max_score` -/

theorem get_contribution_updateUser (s : State) (uid : Nat) (f : User → User)
    (cid : Nat) :
    get_contribution (updateUser s uid f) cid = get_contribution s cid := rfl

theorem get_contribution_congr (s1 s2 : State)
    (h : s1.contributions = s2.contributions) (cid : Nat) :
    get_contribution s1 cid = get_contribution s2 cid := by
  unfold get_contribution
  rw [h]

theorem reward_step_contributions (a b g : ℚ) (ev : Evaluation) (st : State)
    (e : Evaluation) :
    (reward_step a b g ev st e).contributions = st.contributions := by
  unfold reward_step
  dsimp only
  split
  · cases (getUserD st e.userId).referrer <;> rfl
  · rfl

theorem foldl_reward_step_contributions (a b g : ℚ) (ev : Evaluation)
    (L : List Evaluation) (st : State) :
    (L.foldl (reward_step a b g ev) st).contributions = st.contributions := by
  induction L generalizing st with
  | nil => rfl
  | cons e L ih => rw [List.foldl_cons, ih, reward_step_contributions]

theorem reward_previous_evaluators_contributions (powAlpha : ℚ → ℚ) (s : State)
    (ev : Evaluation) :
    (reward_previous_evaluators powAlpha s ev).contributions = s.contributions := by
  unfold reward_previous_evaluators
  dsimp only
  split
  · exact foldl_reward_step_contributions _ _ _ _ _ _
  · rfl

theorem find?_map_update_c (l : List Contribution) (cid cid2 : Nat)
    (f : Contribution → Contribution) (hf : ∀ c, (f c).id = c.id) :
    (l.map (fun c => if c.id == cid then f c else c)).find? (fun c => c.id == cid2)
      = if cid2 = cid then (l.find? (fun c => c.id == cid2)).map f
        else l.find? (fun c => c.id == cid2) := by
  induction l with
  | nil => by_cases h : cid2 = cid <;> simp [h]
  | cons a l ih =>
    by_cases h2 : cid2 = cid
    · subst h2
      rw [if_pos rfl] at ih ⊢
      by_cases h1 : a.id = cid2
      · have hb : (a.id == cid2) = true := beq_iff_eq.mpr h1
        have hfb : ((f a).id == cid2) = true := by rw [hf]; exact hb
        simp only [List.map_cons, hb, if_true, List.find?_cons, hfb]
        rfl
      · have hb : (a.id == cid2) = false := by simpa using h1
        simp only [List.map_cons, hb, Bool.false_eq_true, if_false, List.find?_cons]
        exact ih
    · rw [if_neg h2] at ih ⊢
      by_cases h1 : a.id = cid
      · have hb : (a.id == cid) = true := beq_iff_eq.mpr h1
        have hane : (a.id == cid2) = false := by
          simp only [beq_eq_false_iff_ne, ne_eq]
          intro hcon
          exact h2 (by rw [← hcon, h1])
        have hfne : ((f a).id == cid2) = false := by rw [hf]; exact hane
        simp only [List.map_cons, hb, if_true, List.find?_cons, hfne, hane]
        exact ih
      · have hb : (a.id == cid) = false := by simpa using h1
        simp only [List.map_cons, hb, Bool.false_eq_true, if_false, List.find?_cons]
        by_cases h3 : a.id = cid2
        · simp only [beq_iff_eq.mpr h3]
        · have hb3 : (a.id == cid2) = false := by simpa using h3
          simp only [hb3]
          exact ih

theorem get_contribution_updateContribution (s : State) (cid cid2 : Nat)
    (f : Contribution → Contribution) (hf : ∀ c, (f c).id = c.id) :
    get_contribution (updateContribution s cid f) cid2
      = if cid2 = cid then (get_contribution s cid2).map f
        else get_contribution s cid2 := by
  simp only [get_contribution, updateContribution]
  exact find?_map_update_c s.contributions cid cid2 f hf

theorem getContributionD_id (s : State) (cid : Nat) :
    (getContributionD s cid).id = cid := by
  unfold getContributionD get_contribution
  cases hfind : s.contributions.find? (fun c => c.id == cid) with
  | none => rfl
  | some c =>
    have := List.find?_some hfind
    simpa using this

end Backfeed

namespace Backfeed

/-- Raising one contribution's `max_score` to an upper bound of its old
value never lowers any looked-up `max_score`. -/
theorem getContributionD_update_max_mono (st : State) (cid2 cid : Nat) (m : ℚ)
    (hm : cid = cid2 → (getContributionD st cid).max_score ≤ m) :
    (getContributionD st cid).max_score
      ≤ (getContributionD (updateContribution st cid2
          (fun cc => { cc with max_score := m })) cid).max_score := by
  have hrw := get_contribution_updateContribution st cid2 cid
    (fun cc => { cc with max_score := m }) (fun _ => rfl)
  by_cases hcid : cid = cid2
  · show ((get_contribution st cid).getD ⟨cid, 0, "", 0, 0, 0⟩).max_score
      ≤ ((get_contribution (updateContribution st cid2
          (fun cc => { cc with max_score := m })) cid).getD
        ⟨cid, 0, "", 0, 0, 0⟩).max_score
    rw [hrw, if_pos hcid]
    cases hfind : get_contribution st cid with
    | none => exact le_refl _
    | some c0 =>
      have hc0 : getContributionD st cid = c0 := by
        simp [getContributionD, hfind]
      have h5 : c0.max_score ≤ m := by rw [← hc0]; exact hm hcid
      exact h5
  · show ((get_contribution st cid).getD ⟨cid, 0, "", 0, 0, 0⟩).max_score
      ≤ ((get_contribution (updateContribution st cid2
          (fun cc => { cc with max_score := m })) cid).getD
        ⟨cid, 0, "", 0, 0, 0⟩).max_score
    rw [hrw, if_neg hcid]

/-- The contributor-reward step never lowers any contribution's
`max_score`. -/
theorem reward_contributor_max_mono (st : State) (ev2 : Evaluation) (cid : Nat) :
    (getContributionD st cid).max_score
      ≤ (getContributionD (reward_contributor st ev2) cid).max_score := by
  unfold reward_contributor
  split
  · exact le_refl _
  · dsimp only
    by_cases hgt : contribution_upvotes st (getContributionD st ev2.contributionId)
        > (getContributionD st ev2.contributionId).max_score
    · rw [if_pos hgt, if_pos hgt, getContributionD_id]
      have hkey := getContributionD_update_max_mono st ev2.contributionId cid
        (contribution_upvotes st (getContributionD st ev2.contributionId))
        (fun hc => by rw [hc]; exact le_of_lt hgt)
      cases (getUserD st (getContributionD st ev2.contributionId).userId).referrer
      all_goals repeat' split
      all_goals exact hkey
    · rw [if_neg hgt, if_neg hgt]
      simp

end Backfeed

namespace Backfeed

/-- On an upvote event, whenever the current upvote ratio exceeds the
stored `max_score`, the contributor-reward step updates `max_score` to
the ratio — whether or not a reward base accrues. -/
theorem reward_contributor_max_update (st : State) (ev2 : Evaluation)
    (c2 : Contribution) (hv : ev2.value ≠ 0)
    (hc : get_contribution st ev2.contributionId = some c2)
    (hgt : contribution_upvotes st c2 > c2.max_score) :
    get_contribution (reward_contributor st ev2) ev2.contributionId
      = some { c2 with max_score := contribution_upvotes st c2 } := by
  have hcd : getContributionD st ev2.contributionId = c2 := by
    simp [getContributionD, hc]
  have hcid : c2.id = ev2.contributionId := by
    have := List.find?_some hc
    simpa using this
  have hkey : get_contribution (updateContribution st c2.id
      (fun cc => { cc with max_score := contribution_upvotes st c2 }))
        ev2.contributionId
      = some { c2 with max_score := contribution_upvotes st c2 } := by
    rw [get_contribution_updateContribution st c2.id ev2.contributionId
      (fun cc => { cc with max_score := contribution_upvotes st c2 }) (fun _ => rfl),
      if_pos hcid.symm, hc]
    rfl
  unfold reward_contributor
  rw [if_neg hv]
  dsimp only
  rw [hcd, if_pos hgt, if_pos hgt]
  cases (getUserD st c2.userId).referrer
  all_goals repeat' split
  all_goals exact hkey

/-- C4 (amended): `max_score` is non-decreasing across any sequence of
evaluation events; and within an upvote event (`value ≠ 0`), whenever the
current upvote ratio exceeds the stored `max_score` at the
contributor-reward step, that step updates `max_score` to the ratio
regardless of whether a reward fires.  A downvote event skips the step
entirely, so after a downvote the ratio can exceed the stored `max_score`
without an update (see the counterexample). -/
theorem max_score_high_water (powAlpha powBeta : ℚ → ℚ) (s : State) (u : User)
    (c : Contribution) (v : Int) (s2 : State) (enew : Evaluation)
    (h : create_evaluation powAlpha powBeta s u c v = Except.ok (s2, enew)) :
    (∀ cid : Nat,
      (getContributionD s cid).max_score ≤ (getContributionD s2 cid).max_score) ∧
    (∀ (st : State) (ev2 : Evaluation) (c2 : Contribution), ev2.value ≠ 0 →
      get_contribution st ev2.contributionId = some c2 →
      contribution_upvotes st c2 > c2.max_score →
      get_contribution (reward_contributor st ev2) ev2.contributionId
        = some { c2 with max_score := contribution_upvotes st c2 }) := by
  refine ⟨?_, fun st ev2 c2 => reward_contributor_max_update st ev2 c2⟩
  intro cid
  obtain ⟨hnew, hpipe⟩ := create_evaluation_ok powAlpha powBeta s u c v s2 enew h
  rw [hpipe]
  have hpre : getContributionD
      (reward_previous_evaluators powAlpha
        (pay_evaluation_fee powBeta
          (insert_evaluation (delete_previous_evaluations s u c) u c v).1 enew) enew)
      cid = getContributionD s cid := by
    unfold getContributionD
    rw [get_contribution_congr _ s ?hcontr cid]
    case hcontr =>
      rw [reward_previous_evaluators_contributions]
      rfl
  rw [← hpre]
  exact reward_contributor_max_mono _ enew cid

/-- C4 witness: a concrete upvote event for which the theorem's
hypothesis holds by computation. -/
theorem max_score_high_water_witness :
    ∃ s2 e2, create_evaluation id id stateAgree ⟨3, 50, 10, none⟩
        ⟨1, 3, "base", 1, 0, 0⟩ 1 = Except.ok (s2, e2) ∧
      (∀ cid : Nat,
        (getContributionD stateAgree cid).max_score
          ≤ (getContributionD s2 cid).max_score) :=
  ⟨_, _, rfl, (max_score_high_water id id stateAgree ⟨3, 50, 10, none⟩
    ⟨1, 3, "base", 1, 0, 0⟩ 1 _ _ rfl).1⟩

/-- C4 counterexample: in `stateMaxScore` the stored `max_score` is 1/3;
a downvote by user 3 lowers total reputation through the evaluation fee,
so afterwards the upvote ratio exceeds the stored `max_score`, yet the
event never updates it (the contributor-reward step returned at once on
`value = 0`). -/
theorem max_score_downvote_skip_cex :
    ∃ s2 e2, create_evaluation id id stateMaxScore ⟨3, 50, 20, none⟩
        ⟨1, 1, "base", 1, 1/3, 0⟩ 0 = Except.ok (s2, e2) ∧
      contribution_upvotes s2 (getContributionD s2 1)
        > (getContributionD s2 1).max_score := by
  refine ⟨_, _, rfl, ?_⟩
  norm_num [create_evaluation, delete_previous_evaluations, insert_evaluation,
    pay_evaluation_fee, reward_previous_evaluators, reward_contributor, reward_step,
    sum_equally_voted_reputation, contributionEvaluations, engaged_reputation,
    total_reputation, getUserD, get_user, getContributionD, get_contribution,
    contribution_upvotes, updateUser, updateContribution, gevCond, stateMaxScore,
    get_evaluations, lookupType, CONTRIBUTION_TYPE, baseConfig, defaultConfig,
    REFERRAL_REWARD_FRACTION, is_evaluation_value_allowed,
    REWARD_TOKENS_TO_EVALUATORS, List.find?, List.filter, List.foldl,
    show ((1:Nat) == 1) = true from rfl,
    show ((2:Nat) == 2) = true from rfl,
    show ((3:Nat) == 3) = true from rfl,
    show ((1:Nat) == 2) = false from rfl,
    show ((2:Nat) == 1) = false from rfl,
    show ((1:Nat) == 3) = false from rfl,
    show ((3:Nat) == 1) = false from rfl,
    show ((2:Nat) == 3) = false from rfl,
    show ((3:Nat) == 2) = false from rfl,
    show ((0:Int) == 0) = true from rfl,
    show ((1:Int) == 1) = true from rfl,
    show ((0:Int) == 1) = false from rfl,
    show ((1:Int) == 0) = false from rfl,
    show (((2:Nat) = 3) ↔ False) from by decide,
    show (((3:Nat) = 3) ↔ True) from by decide]

end Backfeed

namespace Backfeed

/-- C2 witness: a concrete first-time evaluation satisfying the
theorem's hypothesis by computation. -/
theorem create_evaluation_unique_pair_witness :
    ∃ s2 e2, create_evaluation id id stateBasic ⟨2, 50, 20, none⟩
        ⟨1, 1, "base", 1, 0, 0⟩ 1 = Except.ok (s2, e2) ∧
      s2.evaluations.filter (fun e => e.userId == 2 && e.contributionId == 1) = [e2] ∧
      e2.value = 1 :=
  ⟨_, _, rfl,
    (create_evaluation_unique_pair id id stateBasic ⟨2, 50, 20, none⟩
      ⟨1, 1, "base", 1, 0, 0⟩ 1 _ _ rfl).1,
    (create_evaluation_unique_pair id id stateBasic ⟨2, 50, 20, none⟩
      ⟨1, 1, "base", 1, 0, 0⟩ 1 _ _ rfl).2.1⟩

/-- C5 witness: the fee rules evaluated on a concrete user and type. -/
theorem create_contribution_fee_witness :
    lookupType "base" = some baseConfig ∧ "base" ≠ "" ∧
    get_user stateBasic 2 = some ⟨2, 50, 20, none⟩ ∧
    (¬ (50:ℚ) < baseConfig.fee → ∃ s2 c,
      create_contribution stateBasic 2 (some "base") 0 = Except.ok (s2, c) ∧
      c.token_fund = baseConfig.fee ∧
      get_user s2 2 = some ⟨2, 50 - baseConfig.fee, 20, none⟩ ∧
      s2.contributions = stateBasic.contributions ++ [c]) :=
  ⟨rfl, by decide, rfl,
    (create_contribution_fee stateBasic ⟨2, 50, 20, none⟩ "base" baseConfig 0
      rfl (by decide) rfl).2⟩

/-- C8 witness: validation evaluated on the out-of-range value 7. -/
theorem evaluation_value_validation_witness :
    lookupType "base" = some baseConfig ∧
    ((is_evaluation_value_allowed 7 "base" = some true ↔
        (7:Int) ∈ baseConfig.evaluation_set) ∧
      ((7:Int) ∉ baseConfig.evaluation_set →
        create_evaluation id id stateBasic ⟨2, 50, 20, none⟩ ⟨1, 1, "base", 1, 0, 0⟩ 7
          = Except.error "Evaluation value is not valid") ∧
      ((7:Int) ∈ baseConfig.evaluation_set → ∃ s2 e,
        create_evaluation id id stateBasic ⟨2, 50, 20, none⟩ ⟨1, 1, "base", 1, 0, 0⟩ 7
          = Except.ok (s2, e))) :=
  ⟨rfl, evaluation_value_validation id id stateBasic ⟨2, 50, 20, none⟩
    ⟨1, 1, "base", 1, 0, 0⟩ 7 baseConfig rfl⟩

end Backfeed

namespace Backfeed

/-! ### C6: the evaluation fee -/

/-- C6: on every successful `create_evaluation` — re-vote or not — the
fee step is applied to the post-insertion state, and it debits the
evaluator's reputation by exactly
`stake * r * (1 - powBeta (engagedRep / totalRep))`, with `r` the
evaluator's reputation at that moment, `engagedRep` the contribution's
engaged reputation including the just-inserted evaluation, and `totalRep`
the sum of all users' reputations. -/
theorem evaluation_fee_formula (powAlpha powBeta : ℚ → ℚ) (s : State) (u : User)
    (c : Contribution) (v : Int) (cfg : CTConfig) (s2 : State) (enew : Evaluation)
    (hc : get_contribution s c.id = some c)
    (hcfg : lookupType c.contribution_type = some cfg)
    (h : create_evaluation powAlpha powBeta s u c v = Except.ok (s2, enew)) :
    s2 = reward_contributor
          (reward_previous_evaluators powAlpha
            (pay_evaluation_fee powBeta
              (insert_evaluation (delete_previous_evaluations s u c) u c v).1 enew)
            enew)
          enew ∧
    (getUserD (pay_evaluation_fee powBeta
        (insert_evaluation (delete_previous_evaluations s u c) u c v).1 enew)
      u.id).reputation
      = (getUserD (insert_evaluation (delete_previous_evaluations s u c) u c v).1
          u.id).reputation
        - cfg.stake
          * ((getUserD (insert_evaluation (delete_previous_evaluations s u c) u c v).1
              u.id).reputation
            * (1 - powBeta
                (engaged_reputation
                    (insert_evaluation (delete_previous_evaluations s u c) u c v).1 c
                  / total_reputation
                    (insert_evaluation (delete_previous_evaluations s u c) u c v).1))) := by
  obtain ⟨hnew, hpipe⟩ := create_evaluation_ok powAlpha powBeta s u c v s2 enew h
  refine ⟨hpipe, ?_⟩
  subst hnew
  have hcd : getContributionD
      (insert_evaluation (delete_previous_evaluations s u c) u c v).1 c.id = c := by
    unfold getContributionD
    rw [get_contribution_congr
      (insert_evaluation (delete_previous_evaluations s u c) u c v).1 s rfl c.id, hc]
    rfl
  unfold pay_evaluation_fee
  dsimp only
  rw [hcd, hcfg]
  unfold getUserD
  rw [get_user_updateUser]
  swap
  · intro x
    rfl
  rw [if_pos rfl]
  cases hfind :
      get_user (insert_evaluation (delete_previous_evaluations s u c) u c v).1 u.id with
  | none =>
    simp only [Option.map_none', Option.getD_none, Option.getD_some]
    ring
  | some u0 =>
    simp only [Option.map_some', Option.getD_some]

end Backfeed

namespace Backfeed

/-- C6 witness: the fee equation evaluated on a concrete upvote. -/
theorem evaluation_fee_formula_witness :
    get_contribution stateBasic 1 = some ⟨1, 1, "base", 1, 0, 0⟩ ∧
    lookupType "base" = some baseConfig ∧
    (∃ s2 e2,
      create_evaluation id id stateBasic ⟨2, 50, 20, none⟩ ⟨1, 1, "base", 1, 0, 0⟩ 1
        = Except.ok (s2, e2) ∧
      (getUserD (pay_evaluation_fee id
          (insert_evaluation (delete_previous_evaluations stateBasic ⟨2, 50, 20, none⟩
            ⟨1, 1, "base", 1, 0, 0⟩) ⟨2, 50, 20, none⟩ ⟨1, 1, "base", 1, 0, 0⟩ 1).1 e2)
        2).reputation
        = (getUserD (insert_evaluation (delete_previous_evaluations stateBasic
              ⟨2, 50, 20, none⟩ ⟨1, 1, "base", 1, 0, 0⟩) ⟨2, 50, 20, none⟩
              ⟨1, 1, "base", 1, 0, 0⟩ 1).1 2).reputation
          - baseConfig.stake
            * ((getUserD (insert_evaluation (delete_previous_evaluations stateBasic
                  ⟨2, 50, 20, none⟩ ⟨1, 1, "base", 1, 0, 0⟩) ⟨2, 50, 20, none⟩
                  ⟨1, 1, "base", 1, 0, 0⟩ 1).1 2).reputation
              * (1 - id (engaged_reputation
                    (insert_evaluation (delete_previous_evaluations stateBasic
                      ⟨2, 50, 20, none⟩ ⟨1, 1, "base", 1, 0, 0⟩) ⟨2, 50, 20, none⟩
                      ⟨1, 1, "base", 1, 0, 0⟩ 1).1 ⟨1, 1, "base", 1, 0, 0⟩
                  / total_reputation
                    (insert_evaluation (delete_previous_evaluations stateBasic
                      ⟨2, 50, 20, none⟩ ⟨1, 1, "base", 1, 0, 0⟩) ⟨2, 50, 20, none⟩
                      ⟨1, 1, "base", 1, 0, 0⟩ 1).1)))) :=
  ⟨rfl, rfl, _, _, rfl,
    (evaluation_fee_formula id id stateBasic ⟨2, 50, 20, none⟩ ⟨1, 1, "base", 1, 0, 0⟩ 1
      baseConfig _ _ rfl rfl rfl).2⟩

end Backfeed

namespace Backfeed

/-! ### C7: ordering and error handling of `get_contributions` -/

theorem sliceResults_sublist (start : Nat) (limit : Option Nat)
    (l : List Contribution) :
    (sliceResults start limit l).Sublist l := by
  unfold sliceResults
  dsimp only
  cases limit with
  | none => exact List.drop_sublist _ _
  | some n =>
    dsimp only
    by_cases hn : n ≠ 0
    · rw [if_pos hn]
      exact (List.take_sublist _ _).trans (List.drop_sublist _ _)
    · rw [if_neg hn]
      exact List.drop_sublist _ _

/-- C7: with `order_by = "-score"`, `get_contributions` returns the
stored contributions sorted by descending `contribution_score` and then
sliced by `start` and `limit`; every `order_by` value outside the four
supported ones fails with the validation error, and no variant ever
returns a modified state (the query is pure). -/
theorem get_contributions_ordering (s : State) (now : Int) (start : Nat)
    (limit : Option Nat) (ob : String)
    (hob : ob ∉ (["score", "-score", "time", "-time"] : List String)) :
    (∃ M : List Contribution, M.Perm s.contributions ∧
      M.Pairwise (fun a b => contribution_score s now b ≤ contribution_score s now a) ∧
      get_contributions s now start limit "-score"
        = Except.ok (sliceResults start limit M) ∧
      (sliceResults start limit M).Pairwise
        (fun a b => contribution_score s now b ≤ contribution_score s now a)) ∧
    get_contributions s now start limit ob
      = Except.error "Unknown order_by value" := by
  constructor
  · have htrans : ∀ a b c2 : Contribution,
        decide (contribution_score s now b ≤ contribution_score s now a) = true →
        decide (contribution_score s now c2 ≤ contribution_score s now b) = true →
        decide (contribution_score s now c2 ≤ contribution_score s now a) = true := by
      intro a b c2 h1 h2
      simp only [decide_eq_true_eq] at h1 h2 ⊢
      exact le_trans h2 h1
    have htotal : ∀ a b : Contribution,
        (decide (contribution_score s now b ≤ contribution_score s now a)
          || decide (contribution_score s now a ≤ contribution_score s now b)) = true := by
      intro a b
      simp only [Bool.or_eq_true, decide_eq_true_eq]
      exact le_total _ _
    have hsorted := @List.sorted_mergeSort Contribution
      (fun a b => decide (contribution_score s now b ≤ contribution_score s now a))
      htrans htotal s.contributions
    have hsorted2 : (s.contributions.mergeSort
        (fun a b => decide (contribution_score s now b ≤ contribution_score s now a))).Pairwise
        (fun a b => contribution_score s now b ≤ contribution_score s now a) :=
      hsorted.imp (fun h => of_decide_eq_true h)
    refine ⟨s.contributions.mergeSort
        (fun a b => decide (contribution_score s now b ≤ contribution_score s now a)),
      List.mergeSort_perm _ _, hsorted2, rfl,
      hsorted2.sublist (sliceResults_sublist start limit _)⟩
  · have h1 : ¬ (ob = "score") := fun hcon => hob (by rw [hcon]; simp)
    have h2 : ¬ (ob = "-score") := fun hcon => hob (by rw [hcon]; simp)
    have h3 : ¬ (ob = "time") := fun hcon => hob (by rw [hcon]; simp)
    have h4 : ¬ (ob = "-time") := fun hcon => hob (by rw [hcon]; simp)
    unfold get_contributions
    rw [if_neg h1, if_neg h2, if_neg h3, if_neg h4]

/-- C7 witness: evaluated on a concrete state with the unsupported
ordering key evaluated by `decide`. -/
theorem get_contributions_ordering_witness :
    ("bogus" ∉ (["score", "-score", "time", "-time"] : List String)) ∧
    ((∃ M : List Contribution, M.Perm stateBasic.contributions ∧
      M.Pairwise (fun a b =>
        contribution_score stateBasic 0 b ≤ contribution_score stateBasic 0 a) ∧
      get_contributions stateBasic 0 0 none "-score"
        = Except.ok (sliceResults 0 none M) ∧
      (sliceResults 0 none M).Pairwise (fun a b =>
        contribution_score stateBasic 0 b ≤ contribution_score stateBasic 0 a)) ∧
    get_contributions stateBasic 0 0 none "bogus"
      = Except.error "Unknown order_by value") :=
  ⟨by decide, get_contributions_ordering stateBasic 0 0 none "bogus" (by decide)⟩

end Backfeed

namespace Backfeed

/-! ### Lookup lemmas for reputation-only updates -/

theorem getUserD_updateRep_ne (s : State) (uid uid2 : Nat) (g : User → ℚ)
    (h : uid2 ≠ uid) :
    getUserD (updateUser s uid (fun x => { x with reputation := g x })) uid2
      = getUserD s uid2 := by
  unfold getUserD
  rw [get_user_updateUser s uid uid2 (fun x => { x with reputation := g x })
    (fun _ => rfl), if_neg h]

theorem getUserD_update_to_mul (s : State) (uid : Nat) (k : ℚ) :
    (getUserD (updateUser s uid
        (fun x => { x with reputation := (getUserD s uid).reputation * k }))
      uid).reputation
      = (getUserD s uid).reputation * k := by
  unfold getUserD
  rw [get_user_updateUser s uid uid
    (fun x => { x with
      reputation := ((get_user s uid).getD ⟨uid, 0, 0, none⟩).reputation * k })
    (fun _ => rfl), if_pos rfl]
  cases hfind : get_user s uid with
  | none => simp
  | some u0 => simp [hfind]

theorem getUserD_update_add (s : State) (uid : Nat) (d : ℚ)
    (hs : (get_user s uid).isSome = true) :
    (getUserD (updateUser s uid
        (fun x => { x with reputation := x.reputation + d })) uid).reputation
      = (getUserD s uid).reputation + d := by
  unfold getUserD
  rw [get_user_updateUser s uid uid
    (fun x => { x with reputation := x.reputation + d }) (fun _ => rfl), if_pos rfl]
  cases hfind : get_user s uid with
  | none => rw [hfind] at hs; cases hs
  | some u0 => simp [hfind]

theorem get_user_isSome_updateRep (s : State) (uid : Nat) (g : User → ℚ) (x : Nat) :
    (get_user (updateUser s uid (fun u2 => { u2 with reputation := g u2 })) x).isSome
      = (get_user s x).isSome := by
  rw [get_user_updateUser s uid x (fun u2 => { u2 with reputation := g u2 })
    (fun _ => rfl)]
  by_cases h : x = uid
  · rw [if_pos h]
    cases get_user s x <;> simp
  · rw [if_neg h]

theorem getUserD_referrer_updateRep (s : State) (uid : Nat) (g : User → ℚ) (x : Nat) :
    (getUserD (updateUser s uid (fun u2 => { u2 with reputation := g u2 })) x).referrer
      = (getUserD s x).referrer := by
  unfold getUserD
  rw [get_user_updateUser s uid x (fun u2 => { u2 with reputation := g u2 })
    (fun _ => rfl)]
  by_cases h : x = uid
  · rw [if_pos h]
    cases hf : get_user s x <;> simp [hf]
  · rw [if_neg h]

end Backfeed

namespace Backfeed

/-! ### Behaviour of one step of the step-6 loop -/

theorem reward_step_referrer (a b g : ℚ) (ev : Evaluation) (st : State)
    (e : Evaluation) (x : Nat) :
    (getUserD (reward_step a b g ev st e) x).referrer = (getUserD st x).referrer := by
  unfold reward_step
  dsimp only
  split
  · cases href : (getUserD st e.userId).referrer with
    | none => exact getUserD_referrer_updateRep st e.userId _ x
    | some rid =>
      rw [getUserD_referrer_updateRep _ rid _ x, getUserD_referrer_updateRep st e.userId _ x]
  · rfl

theorem reward_step_isSome (a b g : ℚ) (ev : Evaluation) (st : State)
    (e : Evaluation) (x : Nat) :
    (get_user (reward_step a b g ev st e) x).isSome = (get_user st x).isSome := by
  unfold reward_step
  dsimp only
  split
  · cases href : (getUserD st e.userId).referrer with
    | none => exact get_user_isSome_updateRep st e.userId _ x
    | some rid =>
      rw [get_user_isSome_updateRep _ rid _ x, get_user_isSome_updateRep st e.userId _ x]
  · rfl

theorem reward_step_self_rep (a b g : ℚ) (ev : Evaluation) (st : State)
    (e : Evaluation) (hq : e.value = ev.value ∧ e.userId ≠ ev.userId)
    (hself : (getUserD st e.userId).referrer ≠ some e.userId) :
    (getUserD (reward_step a b g ev st e) e.userId).reputation
      = (getUserD st e.userId).reputation * (1 + a * b * g) := by
  unfold reward_step
  rw [if_pos hq]
  dsimp only
  cases href : (getUserD st e.userId).referrer with
  | none => exact getUserD_update_to_mul st e.userId _
  | some rid =>
    have hrid : e.userId ≠ rid := by
      intro hcon
      exact hself (by rw [href, hcon])
    rw [getUserD_updateRep_ne _ rid e.userId _ hrid]
    exact getUserD_update_to_mul st e.userId _

theorem reward_step_other_rep (a b g : ℚ) (ev : Evaluation) (st : State)
    (e : Evaluation) (uid : Nat) (hq : e.value = ev.value ∧ e.userId ≠ ev.userId)
    (hne : uid ≠ e.userId)
    (hrex : ∀ rid, (getUserD st e.userId).referrer = some rid →
      (get_user st rid).isSome = true) :
    (getUserD (reward_step a b g ev st e) uid).reputation
      = (getUserD st uid).reputation
        + (if (getUserD st e.userId).referrer = some uid
           then ((getUserD st e.userId).reputation * (1 + a * b * g)
              - (getUserD st e.userId).reputation) * REFERRAL_REWARD_FRACTION
           else 0) := by
  unfold reward_step
  rw [if_pos hq]
  dsimp only
  cases href : (getUserD st e.userId).referrer with
  | none =>
    rw [getUserD_updateRep_ne st e.userId uid _ hne]
    simp
  | some rid =>
    by_cases huid : uid = rid
    · subst huid
      have hsome : (get_user (updateUser st e.userId
          (fun x => { x with
            reputation := (getUserD st e.userId).reputation * (1 + a * b * g) }))
          uid).isSome = true := by
        rw [get_user_isSome_updateRep]
        exact hrex uid href
      rw [getUserD_update_add _ uid _ hsome,
        getUserD_updateRep_ne st e.userId uid _ hne, if_pos rfl]
    · have hcond : ¬ (some rid = some uid) :=
        fun hcon => huid (Option.some.inj hcon).symm
      rw [getUserD_updateRep_ne _ rid uid _ (fun hcon => huid hcon),
        getUserD_updateRep_ne st e.userId uid _ hne, if_neg hcond]
      exact (add_zero _).symm

end Backfeed

namespace Backfeed

/-- The step-6 loop characterised by the snapshot state, for a list of
qualifying evaluations without referral links into the list: every listed
evaluator's reputation is multiplied by `1 + a*b*g` exactly once, and
every other user receives exactly `REFERRAL_REWARD_FRACTION` of the delta
of each listed evaluator they referred. -/
theorem foldl_reward_step_snapshot (a b g : ℚ) (ev : Evaluation)
    (L : List Evaluation) (st : State)
    (hq : ∀ e ∈ L, e.value = ev.value ∧ e.userId ≠ ev.userId)
    (hnd : (L.map Evaluation.userId).Nodup)
    (hnr : ∀ e ∈ L, ∀ e2 ∈ L, (getUserD st e.userId).referrer ≠ some e2.userId)
    (hrex : ∀ e ∈ L, ∀ rid, (getUserD st e.userId).referrer = some rid →
      (get_user st rid).isSome = true) :
    (∀ e ∈ L, (getUserD (L.foldl (reward_step a b g ev) st) e.userId).reputation
        = (getUserD st e.userId).reputation * (1 + a * b * g)) ∧
    (∀ uid : Nat, uid ∉ L.map Evaluation.userId →
      (getUserD (L.foldl (reward_step a b g ev) st) uid).reputation
        = (getUserD st uid).reputation
          + ((L.filter
              (fun e2 => decide ((getUserD st e2.userId).referrer = some uid))).map
              (fun e2 => ((getUserD st e2.userId).reputation * (1 + a * b * g)
                - (getUserD st e2.userId).reputation) * REFERRAL_REWARD_FRACTION)).sum) := by
  induction L generalizing st with
  | nil =>
    constructor
    · intro e he
      cases he
    · intro uid _
      simp
  | cons e tl ih =>
    have hqe := hq e (List.mem_cons_self e tl)
    have hself : (getUserD st e.userId).referrer ≠ some e.userId :=
      hnr e (List.mem_cons_self e tl) e (List.mem_cons_self e tl)
    have hrexe : ∀ rid, (getUserD st e.userId).referrer = some rid →
        (get_user st rid).isSome = true :=
      hrex e (List.mem_cons_self e tl)
    have hnd' : (e.userId :: tl.map Evaluation.userId).Nodup := by simpa using hnd
    have hhead : e.userId ∉ tl.map Evaluation.userId := (List.nodup_cons.mp hnd').1
    have htail : (tl.map Evaluation.userId).Nodup := (List.nodup_cons.mp hnd').2
    set st1 := reward_step a b g ev st e with hst1
    have href1 : ∀ x, (getUserD st1 x).referrer = (getUserD st x).referrer :=
      fun x => reward_step_referrer a b g ev st e x
    have hsome1 : ∀ x, (get_user st1 x).isSome = (get_user st x).isSome :=
      fun x => reward_step_isSome a b g ev st e x
    have hrepe : (getUserD st1 e.userId).reputation
        = (getUserD st e.userId).reputation * (1 + a * b * g) :=
      reward_step_self_rep a b g ev st e hqe hself
    have hrepo : ∀ uid, uid ≠ e.userId →
        (getUserD st1 uid).reputation = (getUserD st uid).reputation
          + (if (getUserD st e.userId).referrer = some uid
             then ((getUserD st e.userId).reputation * (1 + a * b * g)
                - (getUserD st e.userId).reputation) * REFERRAL_REWARD_FRACTION
             else 0) :=
      fun uid hne => reward_step_other_rep a b g ev st e uid hqe hne hrexe
    have hrep_tl : ∀ e2 ∈ tl,
        (getUserD st1 e2.userId).reputation = (getUserD st e2.userId).reputation := by
      intro e2 he2
      have hne : e2.userId ≠ e.userId := by
        intro hcon
        exact hhead (hcon ▸ List.mem_map_of_mem Evaluation.userId he2)
      rw [hrepo e2.userId hne,
        if_neg (hnr e (List.mem_cons_self e tl) e2 (List.mem_cons_of_mem e he2))]
      exact add_zero _
    obtain ⟨ihA, ihB⟩ := ih st1
      (fun e2 he2 => hq e2 (List.mem_cons_of_mem e he2))
      htail
      (fun e2 he2 e3 he3 => by
        rw [href1]
        exact hnr e2 (List.mem_cons_of_mem e he2) e3 (List.mem_cons_of_mem e he3))
      (fun e2 he2 rid h5 => by
        rw [hsome1]
        exact hrex e2 (List.mem_cons_of_mem e he2) rid (by rw [← href1]; exact h5))
    constructor
    · intro e2 he2
      rw [List.foldl_cons, ← hst1]
      rcases List.mem_cons.mp he2 with he2 | he2
      · subst he2
        rw [ihB e2.userId hhead]
        have hfilter : tl.filter
            (fun e3 => decide ((getUserD st1 e3.userId).referrer = some e2.userId)) = [] := by
          rw [List.filter_eq_nil_iff]
          intro e3 he3
          simp only [decide_eq_true_eq]
          rw [href1]
          exact hnr e3 (List.mem_cons_of_mem e2 he3) e2 (List.mem_cons_self e2 tl)
        rw [hfilter]
        simp only [List.map_nil, List.sum_nil, add_zero]
        exact hrepe
      · rw [ihA e2 he2, hrep_tl e2 he2]
    · intro uid hnot
      have hnot' : ¬ (uid = e.userId ∨ uid ∈ tl.map Evaluation.userId) := by
        simpa using hnot
      push_neg at hnot'
      obtain ⟨hne_uid, hnotin⟩ := hnot'
      rw [List.foldl_cons, ← hst1, ihB uid hnotin]
      have hfilter_eq : tl.filter
            (fun e3 => decide ((getUserD st1 e3.userId).referrer = some uid))
          = tl.filter
            (fun e3 => decide ((getUserD st e3.userId).referrer = some uid)) := by
        apply List.filter_congr
        intro e3 _
        rw [href1]
      have hmap_eq : (tl.filter
            (fun e3 => decide ((getUserD st e3.userId).referrer = some uid))).map
            (fun e3 => ((getUserD st1 e3.userId).reputation * (1 + a * b * g)
              - (getUserD st1 e3.userId).reputation) * REFERRAL_REWARD_FRACTION)
          = (tl.filter
            (fun e3 => decide ((getUserD st e3.userId).referrer = some uid))).map
            (fun e3 => ((getUserD st e3.userId).reputation * (1 + a * b * g)
              - (getUserD st e3.userId).reputation) * REFERRAL_REWARD_FRACTION) := by
        apply List.map_congr_left
        intro e3 he3
        rw [hrep_tl e3 (List.mem_of_mem_filter he3)]
      rw [hfilter_eq, hmap_eq, hrepo uid hne_uid, List.filter_cons]
      by_cases hcond : (getUserD st e.userId).referrer = some uid
      · rw [if_pos hcond]
        simp only [decide_eq_true hcond, if_true, List.map_cons, List.sum_cons]
        ring
      · rw [if_neg hcond]
        simp only [decide_eq_false hcond, Bool.false_eq_true, if_false]
        ring

end Backfeed

namespace Backfeed

/-- The step-6 loop ignores non-qualifying evaluations, so folding over
the contribution's evaluations equals folding over the qualifying ones. -/
theorem foldl_reward_step_filter (a b g : ℚ) (ev : Evaluation)
    (L : List Evaluation) (st : State) :
    L.foldl (reward_step a b g ev) st
      = (L.filter (fun e => e.value == ev.value && e.userId != ev.userId)).foldl
          (reward_step a b g ev) st := by
  induction L generalizing st with
  | nil => rfl
  | cons e tl ih =>
    by_cases hq2 : e.value = ev.value ∧ e.userId ≠ ev.userId
    · have hb : (e.value == ev.value && e.userId != ev.userId) = true := by
        simp [beq_iff_eq, bne_iff_ne, hq2.1, hq2.2]
      rw [List.foldl_cons, List.filter_cons, if_pos hb, List.foldl_cons]
      exact ih _
    · have hb : ¬ ((e.value == ev.value && e.userId != ev.userId) = true) := by
        simpa [Bool.and_eq_true, beq_iff_eq, bne_iff_ne] using hq2
      have hstep : reward_step a b g ev st e = st := by
        unfold reward_step
        rw [if_neg hq2]
      rw [List.foldl_cons, List.filter_cons, if_neg hb, hstep]
      exact ih st

/-- C1 (amended): in step 6, when no qualifying evaluator was referred by
a qualifying evaluator (and referrers of qualifying evaluators exist in
the user table), every qualifying evaluator's reputation increases by
exactly `delta = r_e * (distribution_stake * share * burn)` computed from
the snapshot at the start of the step, and every other user's reputation
increases by exactly `0.2 * delta_e` summed over the qualifying
evaluators they referred — so the outcome is determined by the snapshot,
independent of iteration order.  Without that proviso the loop compounds:
a referral credit paid to a later qualifying evaluator changes the
reputation their own delta is computed from (see the counterexample). -/
theorem reward_previous_snapshot (powAlpha : ℚ → ℚ) (s : State) (ev : Evaluation)
    (hEq : sum_equally_voted_reputation s ev ≠ 0)
    (hnd : ((qualifying s ev).map Evaluation.userId).Nodup)
    (hnr : ∀ e ∈ qualifying s ev, ∀ e2 ∈ qualifying s ev,
      (getUserD s e.userId).referrer ≠ some e2.userId)
    (hrex : ∀ e ∈ qualifying s ev, ∀ rid,
      (getUserD s e.userId).referrer = some rid → (get_user s rid).isSome = true) :
    (∀ e ∈ qualifying s ev,
      (getUserD (reward_previous_evaluators powAlpha s ev) e.userId).reputation
        = (getUserD s e.userId).reputation * (1 + step6_multiplier powAlpha s ev)) ∧
    (∀ uid : Nat, uid ∉ (qualifying s ev).map Evaluation.userId →
      (getUserD (reward_previous_evaluators powAlpha s ev) uid).reputation
        = (getUserD s uid).reputation
          + (((qualifying s ev).filter
              (fun e2 => decide ((getUserD s e2.userId).referrer = some uid))).map
              (fun e2 => ((getUserD s e2.userId).reputation
                  * (1 + step6_multiplier powAlpha s ev)
                - (getUserD s e2.userId).reputation)
                * REFERRAL_REWARD_FRACTION)).sum) := by
  have hq : ∀ e ∈ qualifying s ev, e.value = ev.value ∧ e.userId ≠ ev.userId := by
    intro e he
    have hmem := List.of_mem_filter he
    simpa [Bool.and_eq_true, beq_iff_eq, bne_iff_ne] using hmem
  have hred : reward_previous_evaluators powAlpha s ev
      = (qualifying s ev).foldl
          (reward_step
            ((lookupType (getContributionD s ev.contributionId).contribution_type).getD
              defaultConfig).distribution_stake
            ((getUserD s ev.userId).reputation
              / (sum_equally_voted_reputation s ev + (getUserD s ev.userId).reputation))
            (powAlpha ((sum_equally_voted_reputation s ev
              + (getUserD s ev.userId).reputation) / total_reputation s))
            ev) s := by
    unfold reward_previous_evaluators
    dsimp only
    rw [if_pos hEq]
    exact foldl_reward_step_filter _ _ _ _ _ _
  rw [hred]
  exact foldl_reward_step_snapshot _ _ _ ev (qualifying s ev) s hq hnd hnr hrex

end Backfeed

namespace Backfeed

/-- C1 witness: the snapshot property evaluated on a concrete state with
two agreeing previous evaluators and no referral links. -/
theorem reward_previous_snapshot_witness :
    sum_equally_voted_reputation stateAgree ⟨3, 3, 1, 1⟩ ≠ 0 ∧
    (∀ e ∈ qualifying stateAgree ⟨3, 3, 1, 1⟩,
      (getUserD (reward_previous_evaluators id stateAgree ⟨3, 3, 1, 1⟩)
        e.userId).reputation
        = (getUserD stateAgree e.userId).reputation
          * (1 + step6_multiplier id stateAgree ⟨3, 3, 1, 1⟩)) := by
  have hEq : sum_equally_voted_reputation stateAgree ⟨3, 3, 1, 1⟩ ≠ 0 := by
    norm_num [sum_equally_voted_reputation, getUserD, get_user, stateAgree,
      List.filter, List.find?,
      show ((1:Nat) == 1) = true from rfl,
      show ((2:Nat) == 2) = true from rfl,
      show ((3:Nat) == 3) = true from rfl,
      show ((1:Nat) == 2) = false from rfl,
      show ((2:Nat) == 1) = false from rfl,
      show ((1:Nat) == 3) = false from rfl,
      show ((3:Nat) == 1) = false from rfl,
      show ((2:Nat) == 3) = false from rfl,
      show ((3:Nat) == 2) = false from rfl,
      show ((1:Int) == 1) = true from rfl]
  exact ⟨hEq, (reward_previous_snapshot id stateAgree ⟨3, 3, 1, 1⟩ hEq
    (by decide) (by decide) (by decide)).1⟩

/-- C1 counterexample: in `stateReferral`, user 2 both qualifies for the
step-6 reward and is the referrer of qualifying user 1.  The loop credits
user 2's referral bonus before computing user 2's own delta, so user 2's
final reputation differs from the snapshot prediction of the claim
(initial + own delta + 0.2 × referred delta), and the outcome depends on
the iteration order. -/
theorem reward_previous_snapshot_cex :
    (2 ∈ (qualifying stateReferral ⟨3, 3, 1, 1⟩).map Evaluation.userId) ∧
    (getUserD stateReferral 1).referrer = some 2 ∧
    (getUserD (reward_previous_evaluators id stateReferral ⟨3, 3, 1, 1⟩)
        2).reputation
      ≠ (getUserD stateReferral 2).reputation
        + (getUserD stateReferral 2).reputation
          * step6_multiplier id stateReferral ⟨3, 3, 1, 1⟩
        + ((getUserD stateReferral 1).reputation
            * step6_multiplier id stateReferral ⟨3, 3, 1, 1⟩)
          * REFERRAL_REWARD_FRACTION := by
  refine ⟨by decide, rfl, ?_⟩
  norm_num [reward_previous_evaluators, reward_step, step6_multiplier,
    sum_equally_voted_reputation, contributionEvaluations, total_reputation,
    getUserD, get_user, getContributionD, get_contribution, updateUser,
    stateReferral, lookupType, CONTRIBUTION_TYPE, baseConfig, defaultConfig,
    REFERRAL_REWARD_FRACTION, List.find?, List.filter, List.foldl,
    show ((1:Nat) == 1) = true from rfl,
    show ((2:Nat) == 2) = true from rfl,
    show ((3:Nat) == 3) = true from rfl,
    show ((1:Nat) == 2) = false from rfl,
    show ((2:Nat) == 1) = false from rfl,
    show ((1:Nat) == 3) = false from rfl,
    show ((3:Nat) == 1) = false from rfl,
    show ((2:Nat) == 3) = false from rfl,
    show ((3:Nat) == 2) = false from rfl,
    show ((1:Int) == 1) = true from rfl,
    show (((1:Nat) = 3) ↔ False) from by decide,
    show (((2:Nat) = 3) ↔ False) from by decide,
    show (((1:Nat) = 2) ↔ False) from by decide,
    show (((2:Nat) = 1) ↔ False) from by decide]

end Backfeed
